import Mathlib

/-!
Verification of the Feishu channel plugin (chat_feishu) against its
natural-language specification.

The TypeScript sources are shallowly embedded as Lean definitions:

* `src/dedupe.ts` (`createFeishuDedupeCache`)  → `Feishu.markProcessed` on a
  `List String` modelling the insertion-ordered JavaScript `Set`.
* `src/history.ts` (`createGroupHistoryManager`) → `Feishu.record`,
  `Feishu.clearHist`, … on a `List (String × List HistEntry)` modelling the
  insertion-ordered JavaScript `Map`.
* `src/context.ts` (`buildFeishuMessageContext` gating prefix,
  local `isBotMentioned`) → `Feishu.gateDecision`, `Feishu.ctxIsBotMentioned`.
* `src/webhook.ts` (`parseWebhookEvent`, `handleMessageReceive`,
  exported `isBotMentioned`) → `Feishu.parseWebhookEvent`,
  `Feishu.normalizeMessage`, `Feishu.webhookIsBotMentioned`.  `JSON.parse` is
  modelled as an abstract throwing parser `String → Except String ContentObj`.
* `src/inbound.ts` / `channel.ts` (`fetchReplyContext`) →
  `Feishu.fetchReplyContext` with the message-fetch collaborator modelled as
  an `Except` value.
* `src/api.ts` (`shouldUseCardRendering`, `markdownTableToAscii`, `sendSmart`
  render-mode selection) → `Feishu.shouldUseCardRendering`,
  `Feishu.markdownTableToAscii`, `Feishu.sendSmartRender`; the JavaScript
  regexes are embedded with a small backtracking matcher (`matchToks`).
* `src/dispatch.ts` (deliver callback render-mode choice) →
  `Feishu.dispatchRenderMode`.
* `src/websocket.ts` (`createNativeWSClient` reconnect logic) →
  `Feishu.wsStep` over an explicit connection-state record.

JavaScript truthiness (`""`, `undefined` falsy) and nullish coalescing (`??`)
are modelled explicitly; `Option.getD` models `??` (which lets `""` through),
while `jsTruthy`/`jsOrStr` model boolean coercion and `||`.
-/

namespace Feishu

/-- JavaScript truthiness of an optional string: `undefined`/`null` and the
empty string are falsy. -/
def jsTruthy : Option String → Bool
  | none => false
  | some s => !(s == "")

/-- JavaScript truthiness of a plain string: `""` is falsy. -/
def jsTruthyS (s : String) : Bool := !(s == "")

/-- JavaScript `a || b` on optional strings: returns `a` when truthy, else `b`. -/
def jsOrStr (a b : Option String) : Option String :=
  if jsTruthy a then a else b

/-! ## Deduplicator (`src/dedupe.ts`, `createFeishuDedupeCache`)

The JavaScript `Set<string>` is modelled as a `List String` in insertion
order (front = oldest).  `Set.add` of an existing element does not change
the set nor its iteration order. -/

/-- Options of `createFeishuDedupeCache` (defaults 1000 / 800). -/
structure DedupeOptions where
  maxSize : Nat := 1000
  cleanupThreshold : Nat := 800
deriving Repr, DecidableEq

/-- Eviction loop of `markProcessed`: `k` iterations take the next value of the
insertion-order iterator and delete it — but only `if (value)`, so a value
that is the empty string (falsy) is skipped and stays in the set. -/
def evictOldest (k : Nat) (s : List String) : List String :=
  (s.take k).filter (fun v => v == "") ++ s.drop k

/-- `markProcessed(messageId)`: when the size has reached `maxSize`, delete
`size - cleanupThreshold` oldest entries, then insert the id. -/
def markProcessed (opts : DedupeOptions) (s : List String) (messageId : String) :
    List String :=
  let s1 := if s.length ≥ opts.maxSize then
      evictOldest (s.length - opts.cleanupThreshold) s
    else s
  if messageId ∈ s1 then s1 else s1 ++ [messageId]

/-- `isProcessed` is a pure membership check. -/
def isProcessed (s : List String) (messageId : String) : Bool := messageId ∈ s

/-- Run a sequence of `markProcessed` calls from the empty cache. -/
def runMark (opts : DedupeOptions) (ids : List String) : List String :=
  ids.foldl (markProcessed opts) []

/-! ## HistoryBuffer (`src/history.ts`, `createGroupHistoryManager`)

The JavaScript `Map<string, HistoryEntry[]>` is modelled as an association
list in insertion order (front = oldest key).  `Map.set` of an existing key
keeps its position; `record` explicitly deletes and re-inserts the key to
refresh its position to most-recent. -/

/-- `HistoryEntry` of `src/history.ts`. -/
structure HistEntry where
  sender : String
  body : String
  timestamp : Nat
  messageId : String
deriving Repr, DecidableEq

/-- Options of `createGroupHistoryManager` (defaults 10 / 100). -/
structure HistOptions where
  historyLimit : Nat := 10
  maxGroups : Nat := 100
deriving Repr, DecidableEq

/-- State of the group-history `Map`, in key insertion order. -/
abbrev HistState := List (String × List HistEntry)

/-- Keys of the map, in insertion order. -/
def keys (st : HistState) : List String := st.map Prod.fst

/-- `Map.get`: first entry with the given key. -/
def lookupHist (st : HistState) (chatId : String) : Option (List HistEntry) :=
  (st.find? (fun p => p.1 == chatId)).map Prod.snd

/-- `Map.delete` of a key (keys are unique in reachable states). -/
def eraseKey (st : HistState) (chatId : String) : HistState :=
  st.filter (fun p => !(p.1 == chatId))

/-- Eviction loop of `record`: delete the first `k` keys of the iterator, but
only `if (key)` — an empty-string key (falsy) is skipped and survives. -/
def evictGroups (k : Nat) (st : HistState) : HistState :=
  (st.take k).filter (fun p => p.1 == "") ++ st.drop k

/-- The `while (history.length > historyLimit) history.shift()` loop:
drop oldest entries until at most `historyLimit` remain. -/
def trimHist (limit : Nat) (h : List HistEntry) : List HistEntry :=
  if h.length > limit then h.drop (h.length - limit) else h

/-- `record(chatId, entry)`: evict oldest groups when `size > maxGroups`
(strictly greater, checked before insertion), append the entry to the chat's
list trimmed to `historyLimit`, and move the chat to most-recent position. -/
def record (opts : HistOptions) (st : HistState) (chatId : String)
    (entry : HistEntry) : HistState :=
  let st1 := if st.length > opts.maxGroups then
      evictGroups (st.length - opts.maxGroups) st
    else st
  let hist := (lookupHist st1 chatId).getD []
  let newHist := trimHist opts.historyLimit (hist ++ [entry])
  eraseKey st1 chatId ++ [(chatId, newHist)]

/-- `get(chatId)`: entries of the chat, or the empty list. -/
def getHist (st : HistState) (chatId : String) : List HistEntry :=
  (lookupHist st chatId).getD []

/-- `clear(chatId)` is `groupHistories.set(chatId, [])`: it replaces the
entries of a known chat in place, and inserts an unknown chat at the end. -/
def clearHist (st : HistState) (chatId : String) : HistState :=
  if (lookupHist st chatId).isSome then
    st.map (fun p => if p.1 == chatId then (p.1, ([] : List HistEntry)) else p)
  else st ++ [(chatId, [])]

/-- `groupCount()` is the size of the map. -/
def groupCount (st : HistState) : Nat := st.length

/-- Run a sequence of `record` calls from the empty manager. -/
def runRecords (opts : HistOptions) (calls : List (String × HistEntry)) :
    HistState :=
  calls.foldl (fun st p => record opts st p.1 p.2) []

/-! ## Inbound messages and access gate
(`src/webhook.ts` `FeishuInboundMessage`, `src/context.ts` gating prefix) -/

/-- Mapped mention of `FeishuInboundMessage` (`key`, resolved `id`, `name`). -/
structure Mention where
  key : String
  id : String
  name : String
deriving Repr, DecidableEq

/-- `FeishuInboundMessage` of `src/webhook.ts` (media-path fields omitted). -/
structure InboundMsg where
  messageId : String := ""
  chatId : String := ""
  chatType : String := "direct"
  senderId : String := ""
  senderOpenId : Option String := none
  senderUserId : Option String := none
  senderUnionId : Option String := none
  messageType : String := "text"
  content : String := ""
  text : Option String := none
  displayText : Option String := none
  mentions : Option (List Mention) := none
  rootId : Option String := none
  parentId : Option String := none
  createTime : Nat := 0
  tenantKey : String := ""
  replyToBody : Option String := none
  replyToSenderId : Option String := none
  replyToId : Option String := none
  imageKey : Option String := none
  fileKey : Option String := none
  fileName : Option String := none
deriving Repr, DecidableEq

/-- Per-account policy snapshot (the fields of `ResolvedFeishuAccount` /
`FeishuAccountConfig` consulted by the gate; `requireMention` is resolved
to a plain boolean in `resolveFeishuAccount`, default `true`). -/
structure AccountCfg where
  dmPolicy : Option String := none
  allowFrom : Option (List String) := none
  groupPolicy : Option String := none
  requireMention : Bool := true
  renderMode : String := "auto"
  verificationToken : Option String := none
deriving Repr, DecidableEq

/-- Substring test, modelling JavaScript `String.prototype.includes`. -/
def charsInclude (needle : List Char) : List Char → Bool
  | [] => needle.isPrefixOf []
  | c :: cs => needle.isPrefixOf (c :: cs) || charsInclude needle cs

/-- `hay.includes(needle)` on Lean strings. -/
def strIncludes (hay needle : String) : Bool := charsInclude needle.data hay.data

/-- ASCII whitespace stripped by `String.prototype.trim` (the common
subset actually occurring in mention names). -/
def isTrimmedSpace (c : Char) : Bool :=
  c == ' ' || c == '\t' || c == '\n' || c == '\r'

/-- Strip leading and trailing whitespace (a list-level model of
`String.prototype.trim`). -/
def trimChars (l : List Char) : List Char :=
  ((l.dropWhile isTrimmedSpace).reverse.dropWhile isTrimmedSpace).reverse

/-- Lower-case every character (`String.prototype.toLowerCase`; modelled
with `Char.toLower`, which agrees on the ASCII range). -/
def toLowerStr (s : String) : String := String.mk (s.data.map Char.toLower)

/-- `normalizeMentionName` of `src/context.ts`: `name.trim().toLowerCase()`. -/
def normalizeMentionName (name : String) : String :=
  String.mk ((trimChars name.data).map Char.toLower)

/-- The module-local `isBotMentioned` of `src/context.ts` — the mention
computation the gate actually uses.  It checks the resolved mention ids
against `botOpenId`, the mention names against the normalized `botName`, and
finally whether the display text contains `"@" ++ normalized name`.  It has
no `"@_all"` clause. -/
def ctxIsBotMentioned (message : InboundMsg) (botOpenId botName : Option String) :
    Bool :=
  match message.mentions with
  | none => false
  | some ms =>
    if ms.length == 0 then false
    else if jsTruthy botOpenId && ms.any (fun m => m.id == botOpenId.getD "") then
      true
    else if jsTruthy botName then
      let normalized := normalizeMentionName (botName.getD "")
      if ms.any (fun m =>
          jsTruthyS m.name && (normalizeMentionName m.name == normalized)) then
        true
      else
        let displayText := (message.displayText.or message.text).getD ""
        strIncludes (toLowerStr displayText) ("@" ++ normalized)
    else false

/-- The exported `isBotMentioned` of `src/webhook.ts`: checks mention id,
exact (non-normalized) mention name, and the `"@_all"` @everyone key. -/
def webhookIsBotMentioned (message : InboundMsg)
    (botOpenId botName : Option String) : Bool :=
  match message.mentions with
  | none => false
  | some ms =>
    if ms.length == 0 then false
    else ms.any (fun m =>
      (jsTruthy botOpenId && m.id == botOpenId.getD "") ||
      (jsTruthy botName && m.name == botName.getD "") ||
      (m.key == "@_all"))

/-- Outcome of the gating prefix of `buildFeishuMessageContext`: `deny r`
models a `return null` (with the logged reason), `allow` models falling
through to context construction. -/
inductive GateResult where
  | allow
  | deny (reason : String)
deriving Repr, DecidableEq

/-- Gating prefix of `buildFeishuMessageContext` (`src/context.ts`): the
DM-policy branch, then the group-policy and mention-requirement branch.
Note that under `dmPolicy = "pairing"` a sender missing from a non-empty
`allowFrom` is NOT denied: only the `dmPolicy === "allowlist"` case returns
null (the source comments `pairing mode would need additional handling`). -/
def gateDecision (account : AccountCfg) (message : InboundMsg)
    (botOpenId botName : Option String) : GateResult :=
  let isGroup := message.chatType == "group"
  if !isGroup then
    let dmPolicy := account.dmPolicy.getD "pairing"
    if dmPolicy == "disabled" then .deny "dmPolicy=disabled"
    else if !(dmPolicy == "open") then
      let allowFrom := account.allowFrom.getD []
      let senderId := message.senderOpenId.getD message.senderId
      let allowed := allowFrom.isEmpty || allowFrom.contains senderId
      if !allowed && dmPolicy == "allowlist" then .deny "unauthorized DM sender"
      else .allow
    else .allow
  else
    let groupPolicy := account.groupPolicy.getD "allowlist"
    if groupPolicy == "disabled" then .deny "groupPolicy=disabled"
    else
      let wasMentioned := ctxIsBotMentioned message botOpenId botName
      let canIdentifyBot := jsTruthy botOpenId || jsTruthy botName
      if account.requireMention && !wasMentioned then
        if !canIdentifyBot then .allow
        else .deny "no mention"
      else .allow

/-! ## Event normalization (`src/webhook.ts`)

`JSON.parse(message.content)` is modelled as an abstract throwing parser
`jp : String → Except String ContentObj`; `ContentObj` carries exactly the
fields the handler reads from the parsed content (absent JSON fields are
`none`). -/

/-- One element of a rich-text (`post`) line: the handler reads `tag`,
`text` and `user_name`. -/
structure PostElement where
  tag : Option String := none
  text : Option String := none
  userName : Option String := none
deriving Repr, DecidableEq

/-- A per-language post body: `title` and `content` (list of lines). -/
structure LangPost where
  title : Option String := none
  content : Option (List (List PostElement)) := none
deriving Repr, DecidableEq

/-- The nested `post` field of content format 3. -/
structure PostNested where
  zhCn : Option LangPost := none
  enUs : Option LangPost := none
deriving Repr, DecidableEq

/-- One card element: the handler reads `tag`, `content` and `text.content`. -/
structure CardElement where
  tag : Option String := none
  content : Option String := none
  textContent : Option String := none
deriving Repr, DecidableEq

/-- The fields `handleMessageReceive`, `extractTextFromPost` and
`extractTextFromCard` read from `JSON.parse(message.content)`. -/
structure ContentObj where
  text : Option String := none
  imageKey : Option String := none
  fileKey : Option String := none
  fileName : Option String := none
  chatIdField : Option String := none
  userIdField : Option String := none
  zhCn : Option LangPost := none
  enUs : Option LangPost := none
  title : Option String := none
  contentLines : Option (List (List PostElement)) := none
  post : Option PostNested := none
  headerTitle : Option String := none
  elements : Option (List CardElement) := none
deriving Repr, DecidableEq

/-- `extractFromElements` of `extractTextFromPost`: `text`/`a` tags with a
truthy `text` contribute the text, `at` tags with a truthy `user_name`
contribute `"@" ++ user_name`. -/
def extractPostElement (el : PostElement) : List String :=
  if (el.tag == some "text" || el.tag == some "a") && jsTruthy el.text then
    [el.text.getD ""]
  else if el.tag == some "at" && jsTruthy el.userName then
    ["@" ++ el.userName.getD ""]
  else []

/-- `extractTextFromPost` of `src/webhook.ts`: resolve the post body from one
of the three supported formats, then join the truthy title and all extracted
element texts with `" "`. -/
def extractTextFromPost (obj : ContentObj) : String :=
  let fmt1 := (obj.zhCn.or obj.enUs).bind
    (fun lp => lp.content.map (fun c => (lp.title, c)))
  let fmt2 := obj.contentLines.map (fun c => (obj.title, c))
  let fmt3 := obj.post.bind (fun nested =>
    (nested.zhCn.or nested.enUs).bind
      (fun lp => lp.content.map (fun c => (lp.title, c))))
  match (fmt1.or fmt2).or fmt3 with
  | none => String.intercalate " " []
  | some (title, lines) =>
    let texts := (if jsTruthy title then [title.getD ""] else []) ++
      lines.flatMap (fun line => line.flatMap extractPostElement)
    String.intercalate " " texts

/-- `extractTextFromCard` of `src/webhook.ts`: truthy header title, then each
`markdown` element's truthy `content` and each `div` element's truthy
`text.content`, joined with `"\n"`. -/
def extractTextFromCard (obj : ContentObj) : String :=
  let headerTexts := if jsTruthy obj.headerTitle then [obj.headerTitle.getD ""] else []
  let elementTexts := (obj.elements.getD []).flatMap (fun el =>
    if el.tag == some "markdown" && jsTruthy el.content then [el.content.getD ""]
    else if el.tag == some "div" && jsTruthy el.textContent then
      [el.textContent.getD ""]
    else [])
  String.intercalate "\n" (headerTexts ++ elementTexts)

/-- `sender_id` / mention `id` object with the three optional id kinds. -/
structure SenderId where
  openId : Option String := none
  userId : Option String := none
  unionId : Option String := none
deriving Repr, DecidableEq

/-- `open_id || user_id || union_id || ""` (JavaScript `||`: `""` is falsy
and falls through). -/
def firstTruthyId (s : SenderId) : String :=
  (jsOrStr (jsOrStr s.openId s.userId) s.unionId).getD ""

/-- Raw mention of a `FeishuMessageReceiveEvent`. -/
structure RawMention where
  key : String
  idObj : SenderId
  name : String
deriving Repr, DecidableEq

/-- The `message` part of a `FeishuMessageReceiveEvent`. -/
structure RawMessage where
  messageId : String := ""
  chatId : String := ""
  chatType : String := "p2p"
  messageType : String := "text"
  content : String := ""
  mentions : Option (List RawMention) := none
  rootId : Option String := none
  parentId : Option String := none
  createTime : String := "0"
deriving Repr, DecidableEq

/-- A `FeishuMessageReceiveEvent` (`event.sender` + `event.message`). -/
structure MsgReceiveEvent where
  message : RawMessage
  senderIdObj : SenderId := {}
  tenantKey : String := ""
deriving Repr, DecidableEq

/-- Message kinds with a dedicated branch in `handleMessageReceive`; any
other kind falls to the `default` branch. -/
def recognizedKinds : List String :=
  ["text", "post", "image", "file", "audio", "media", "sticker",
   "interactive", "share_chat", "share_user"]

/-- Text (plus media-key) extraction of `handleMessageReceive`: the
`try { JSON.parse … switch (message_type) … } catch { text = content }`
block.  Returns `(text, imageKey, fileKey, fileName)`. -/
def extractContent (jp : String → Except String ContentObj) (msg : RawMessage) :
    Option String × Option String × Option String × Option String :=
  match jp msg.content with
  | .error _ => (some msg.content, none, none, none)
  | .ok obj =>
    if msg.messageType == "text" then (obj.text, none, none, none)
    else if msg.messageType == "post" then
      (some (extractTextFromPost obj), none, none, none)
    else if msg.messageType == "image" then
      (some "<media:image>", obj.imageKey, none, none)
    else if msg.messageType == "file" then
      (some ("<media:file>" ++ (obj.fileName.getD "file")), none, obj.fileKey,
        obj.fileName)
    else if msg.messageType == "audio" then
      (some "<media:audio>", none, obj.fileKey, none)
    else if msg.messageType == "media" then
      (some "<media:video>", obj.imageKey, obj.fileKey, none)
    else if msg.messageType == "sticker" then
      (some "<media:sticker>", none, obj.fileKey, none)
    else if msg.messageType == "interactive" then
      (some (extractTextFromCard obj), none, none, none)
    else if msg.messageType == "share_chat" then
      (some ("[Shared chat: " ++ obj.chatIdField.getD "undefined" ++ "]"),
        none, none, none)
    else if msg.messageType == "share_user" then
      (some ("[Shared user: " ++ obj.userIdField.getD "undefined" ++ "]"),
        none, none, none)
    else (some msg.content, none, none, none)

/-- Replace every non-overlapping occurrence of `pat` by `rep`, scanning
left to right; an empty pattern leaves the input unchanged. -/
def replaceAllAux (pat rep : List Char) : List Char → List Char
  | [] => []
  | c :: rest =>
    if pat.isPrefixOf (c :: rest) && !pat.isEmpty then
      rep ++ replaceAllAux pat rep ((c :: rest).drop pat.length)
    else c :: replaceAllAux pat rep rest
termination_by l => l.length
decreasing_by
  all_goals simp only [List.length_cons, List.length_drop]
  all_goals rename_i hcond
  all_goals simp only [Bool.and_eq_true, Bool.not_eq_true'] at hcond
  · have hlen : 1 ≤ pat.length := by
      rcases pat with _ | ⟨p, ps⟩
      · simp at hcond
      · simp
    omega
  · omega

/-- String-level global literal replacement. -/
def replaceAll (s pat rep : String) : String :=
  String.mk (replaceAllAux pat.data rep.data s.data)

/-- Display-text computation: every mention placeholder `key` replaced by
`"@" ++ name` (the `new RegExp(mention.key, "g")` replace is modelled as
global literal substring replacement). -/
def buildDisplayText (text : Option String) (mentions : Option (List Mention)) :
    Option String :=
  match text, mentions with
  | some t, some ms =>
    if jsTruthyS t && ms.length > 0 then
      some (ms.foldl (fun acc m => replaceAll acc m.key ("@" ++ m.name)) t)
    else some t
  | t, _ => t

/-- `handleMessageReceive` of `src/webhook.ts`, producing the normalized
`FeishuInboundMessage`.  `parseInt(create_time, 10)` is modelled with
`String.toNat?` defaulting to `0`. -/
def normalizeMessage (jp : String → Except String ContentObj)
    (e : MsgReceiveEvent) : InboundMsg :=
  let (text, imageKey, fileKey, fileName) := extractContent jp e.message
  let mentions := e.message.mentions.map (List.map (fun m =>
    ({ key := m.key, id := firstTruthyId m.idObj, name := m.name } : Mention)))
  { messageId := e.message.messageId
    chatId := e.message.chatId
    chatType := if e.message.chatType == "p2p" then "direct" else "group"
    senderId := firstTruthyId e.senderIdObj
    senderOpenId := e.senderIdObj.openId
    senderUserId := e.senderIdObj.userId
    senderUnionId := e.senderIdObj.unionId
    messageType := e.message.messageType
    content := e.message.content
    text := text
    displayText := buildDisplayText text mentions
    mentions := mentions
    rootId := e.message.rootId
    parentId := e.message.parentId
    createTime := e.message.createTime.toNat?.getD 0
    tenantKey := e.tenantKey
    imageKey := imageKey
    fileKey := fileKey
    fileName := fileName }

/-- Transport payloads, classified by envelope shape as in
`parseWebhookEvent` (`url_verification` type, `schema`+`header` callback,
anything else). -/
inductive CallbackEvent where
  | messageReceive (e : MsgReceiveEvent)
  | botAdded (chatId : String)
  | botRemoved (chatId : String)
  | otherEventType
deriving Repr

/-- A webhook body. -/
inductive WebhookBody where
  | urlVerification (token challenge : String)
  | eventCallback (event : CallbackEvent)
  | otherShape
deriving Repr

/-- `FeishuWebhookResult` of `src/webhook.ts`. -/
inductive WebhookResult where
  | challenge (c : String)
  | message (m : InboundMsg)
  | botAdded (chatId : String)
  | botRemoved (chatId : String)
  | unknown
  | errorResult (e : String)
deriving Repr

/-- `parseWebhookEvent` of `src/webhook.ts`: a total function — every
payload yields a `WebhookResult` (the surrounding `try/catch` would map an
exception to an `error` result, but no branch throws). -/
def parseWebhookEvent (jp : String → Except String ContentObj)
    (account : AccountCfg) (body : WebhookBody) : WebhookResult :=
  match body with
  | .urlVerification token challenge =>
    if jsTruthy account.verificationToken &&
        !(token == account.verificationToken.getD "") then
      .errorResult "Invalid verification token"
    else .challenge challenge
  | .eventCallback (.messageReceive e) => .message (normalizeMessage jp e)
  | .eventCallback (.botAdded chatId) => .botAdded chatId
  | .eventCallback (.botRemoved chatId) => .botRemoved chatId
  | .eventCallback .otherEventType => .unknown
  | .otherShape => .unknown

/-! ## ReplyContextResolver (`fetchReplyContext`, `src/inbound.ts` and
`channel.ts`)

The external `api.getMessage` collaborator is modelled as an
`Except String GetMessageResult` value: `.error` models a thrown error,
`.ok` the settled response. -/

/-- The parent message fields used by `fetchReplyContext`. -/
structure ParentMsg where
  body : Option String := none
  senderId : String := ""
deriving Repr, DecidableEq

/-- Result shape of `api.getMessage`. -/
structure GetMessageResult where
  ok : Bool
  message : Option ParentMsg := none
deriving Repr, DecidableEq

/-- `fetchReplyContext`: when the inbound message has a truthy `parentId`
and the fetch succeeds with a message, attach the parent's body and sender;
in every other case return the inbound message unchanged. -/
def fetchReplyContext (fetch : Except String GetMessageResult)
    (inbound : InboundMsg) : InboundMsg :=
  if !(jsTruthy inbound.parentId) then inbound
  else
    match fetch with
    | .error _ => inbound
    | .ok r =>
      match r.message with
      | some m =>
        if r.ok then
          { inbound with
              replyToBody := m.body
              replyToSenderId := some m.senderId
              replyToId := inbound.parentId }
        else inbound
      | none => inbound

/-! ## RenderPolicy (`src/api.ts`: `shouldUseCardRendering`,
`markdownTableToAscii`, `sendSmart`; `src/dispatch.ts` deliver callback)

The JavaScript regex tests are embedded with a small backtracking matcher
over token sequences: a literal character, a greedy one-or-more character
class (`[...]+`), or `[\s\S]*?` (existence of a match is unaffected by
greediness). -/

/-- Token of a linear regular pattern. -/
inductive Tok where
  | lit (c : Char)
  | plus (p : Char → Bool)
  | star

/-- Match one-or-more characters satisfying `p` and then the continuation
`k`, backtracking over the length of the `p`-run (the `[...]+` token). -/
def plusCont (p : Char → Bool) (k : List Char → Bool) : List Char → Bool
  | [] => false
  | x :: xs => p x && (k xs || plusCont p k xs)

/-- Match zero-or-more arbitrary characters and then the continuation `k`
(the `[\s\S]*?` token; greediness does not affect match existence). -/
def starCont (k : List Char → Bool) : List Char → Bool
  | [] => k []
  | x :: xs => k (x :: xs) || starCont k xs

/-- Anchored matcher of a token sequence: does the pattern match some
prefix of the input?  Trailing input beyond the match is allowed. -/
def toksMatcher : List Tok → List Char → Bool
  | [] => fun _ => true
  | .lit c :: ts => fun s =>
    match s with
    | [] => false
    | x :: xs => x == c && toksMatcher ts xs
  | .plus p :: ts => plusCont p (toksMatcher ts)
  | .star :: ts => starCont (toksMatcher ts)

/-- Unanchored search: does the pattern match starting at any position? -/
def searchToks (toks : List Tok) : List Char → Bool
  | [] => toksMatcher toks []
  | c :: cs => toksMatcher toks (c :: cs) || searchToks toks cs

/-- JavaScript line terminators (excluded by `.` without the `s` flag). -/
def isLineTerm (c : Char) : Bool :=
  c == '\n' || c == '\r' || c == '\u2028' || c == '\u2029'

/-- The `.` character class. -/
def dotClass (c : Char) : Bool := !(isLineTerm c)

/-- The `[\r\n]` character class. -/
def crlfClass (c : Char) : Bool := c == '\r' || c == '\n'

/-- The `[-:| ]` character class of the table separator row. -/
def sepClass (c : Char) : Bool := c == '-' || c == ':' || c == '|' || c == ' '

/-- The table regex `/\|.+\|[\r\n]+\|[-:| ]+\|/`. -/
def tableToks : List Tok :=
  [.lit '|', .plus dotClass, .lit '|', .plus crlfClass, .lit '|',
   .plus sepClass, .lit '|']

/-- Markdown-table-shaped test (`/\|.+\|[\r\n]+\|[-:| ]+\|/.test`). -/
def hasTablePattern (t : String) : Bool := searchToks tableToks t.data

/-- The code-fence regex `/```[\s\S]*?```/`. -/
def codeFenceToks : List Tok :=
  [.lit '`', .lit '`', .lit '`', .star, .lit '`', .lit '`', .lit '`']

/-- Code-fence test. -/
def hasCodeFence (t : String) : Bool := searchToks codeFenceToks t.data

/-- The markdown-link regex `/\[.+\]\(.+\)/`. -/
def linkToks : List Tok :=
  [.lit '[', .plus dotClass, .lit ']', .lit '(', .plus dotClass, .lit ')']

/-- Markdown-link test. -/
def hasMarkdownLink (t : String) : Bool := searchToks linkToks t.data

/-- `(text.match(/\n\n/g) || []).length`: non-overlapping left-to-right
count of `"\n\n"` occurrences. -/
def countDoubleNewline : List Char → Nat
  | '\n' :: '\n' :: rest => countDoubleNewline rest + 1
  | _ :: rest => countDoubleNewline rest
  | [] => 0

/-- `shouldUseCardRendering` of `src/api.ts`: code fence, table shape,
markdown link, length above 500, or at least 3 blank-line paragraph breaks.
(JavaScript `length` counts UTF-16 units; `String.length` agrees on the
Basic Multilingual Plane.) -/
def shouldUseCardRendering (text : String) : Bool :=
  hasCodeFence text || hasTablePattern text || hasMarkdownLink text ||
    text.length > 500 || countDoubleNewline text.data ≥ 3

/-- First stage of `markdownTableToAscii`: `.replace(/\|/g, " | ")`. -/
def spaceOutPipes : List Char → List Char
  | [] => []
  | c :: rest => (if c == '|' then [' ', '|', ' '] else [c]) ++ spaceOutPipes rest

/-- The `[-:]` character class. -/
def dashColon (c : Char) : Bool := c == '-' || c == ':'

/-- Replacement applied inside a matched separator run:
`match.replace(/[:|]/g, "-")`. -/
def toDash (c : Char) : Char := if c == ':' || c == '|' then '-' else c

/-- Second stage of `markdownTableToAscii`: the global replace
`.replace(/[-:]+\|[-:| ]+/g, m => m.replace(/[:|]/g, "-"))`, scanning left
to right.  For this pattern maximal munch is complete: a shorter `[-:]+` run
is followed by another `[-:]` character, never by the required `|`. -/
def stage2 : List Char → List Char
  | [] => []
  | c :: rest =>
    if dashColon c then
      match h : (c :: rest).dropWhile dashColon with
      | '|' :: rest2 =>
        let r2 := rest2.takeWhile sepClass
        if r2.isEmpty then c :: stage2 rest
        else
          ((c :: rest).takeWhile dashColon ++ ['|'] ++ r2).map toDash ++
            stage2 (rest2.drop r2.length)
      | _ => c :: stage2 rest
    else c :: stage2 rest
termination_by s => s.length
decreasing_by
  all_goals simp only [List.length_cons, List.length_drop]
  all_goals try omega
  all_goals
    (have h1 : ('|' :: rest2).length ≤ (c :: cs).length :=
       h ▸ (List.dropWhile_suffix _).length_le
     simp only [List.length_cons] at h1
     omega)

/-- `markdownTableToAscii` of `src/api.ts`. -/
def markdownTableToAscii (markdown : String) : String :=
  String.mk (stage2 (spaceOutPipes markdown.data))

/-- Outcome of the delivery choice of `sendSmart`: an interactive card built
from the original text, or a plain text message. -/
inductive RenderDecision where
  | card (text : String)
  | plainText (text : String)
deriving Repr, DecidableEq

/-- Render-mode switch of `sendSmart` (`src/api.ts`): the effective mode is
`options.renderMode ?? account.renderMode` (the account mode is resolved,
default `"auto"`).  `card` always sends a markdown card with the original
text; `raw` always sends plain text with tables reformatted; `auto` (and any
unrecognized mode, via the switch `default`) applies `shouldUseCardRendering`. -/
def sendSmartRender (accountRenderMode : String) (optRenderMode : Option String)
    (text : String) : RenderDecision :=
  let renderMode := optRenderMode.getD accountRenderMode
  let useCard :=
    if renderMode == "card" then true
    else if renderMode == "raw" then false
    else shouldUseCardRendering text
  let processedText := if renderMode == "raw" then markdownTableToAscii text else text
  if useCard then .card text else .plainText processedText

/-- Render mode chosen by the deliver callback of `dispatchFeishuMessage`
(`src/dispatch.ts`): `api.shouldUseCardRendering(text) ? "card" :
account.renderMode` — it overrides the account's configured mode with
`"card"` whenever the reply text is card-worthy. -/
def dispatchRenderMode (accountRenderMode : String) (text : String) : String :=
  if shouldUseCardRendering text then "card" else accountRenderMode

/-! ## ConnectionSupervisor (`src/websocket.ts`, `createNativeWSClient`)

The handler-level state (`state`, `reconnectAttempts`, `reconnectTimeout`,
`heartbeatInterval`) is modelled as a record, and the event handlers
(`ws.onopen`, `ws.onclose`, reconnect-timer fire, `stop()`) as a step
function. -/

/-- Connection-supervisor state of the native WebSocket client. -/
structure WSState where
  connState : String := "disconnected"
  reconnectAttempts : Nat := 0
  pendingReconnectDelay : Option Nat := none
  heartbeatActive : Bool := false
deriving Repr, DecidableEq

/-- `maxReconnectAttempts` of `createNativeWSClient`. -/
def maxReconnectAttempts : Nat := 10

/-- `baseReconnectDelay` of `createNativeWSClient` (milliseconds). -/
def baseReconnectDelay : Nat := 1000

/-- Observable events of the native client. -/
inductive WSEvent where
  | onOpen
  | onClose
  | timerFire
  | stopClient
deriving Repr, DecidableEq

/-- One step of the native client: `ws.onopen` resets the attempt counter
and starts the heartbeat; `ws.onclose` runs `cleanup()` and, while fewer
than `maxReconnectAttempts` attempts were made, schedules a reconnect after
`baseReconnectDelay * 2 ^ attempts` and increments the counter; the timer
firing re-enters `connect()` (`setState("connecting")`); `stop()` forces the
counter to the maximum and cleans up. -/
def wsStep (s : WSState) : WSEvent → WSState
  | .onOpen =>
    { s with
        connState := "connected"
        reconnectAttempts := 0
        heartbeatActive := true }
  | .onClose =>
    let s1 : WSState :=
      { s with
          heartbeatActive := false
          pendingReconnectDelay := none
          connState := "disconnected" }
    if s.reconnectAttempts < maxReconnectAttempts then
      { s1 with
          connState := "reconnecting"
          pendingReconnectDelay :=
            some (baseReconnectDelay * 2 ^ s.reconnectAttempts)
          reconnectAttempts := s.reconnectAttempts + 1 }
    else s1
  | .timerFire =>
    { s with
        pendingReconnectDelay := none
        connState := "connecting" }
  | .stopClient =>
    { s with
        reconnectAttempts := maxReconnectAttempts
        heartbeatActive := false
        pendingReconnectDelay := none
        connState := "disconnected" }

/-- Initial state of the client. -/
def wsInit : WSState := {}

/-- Run an event sequence from the initial state. -/
def wsRun (evts : List WSEvent) : WSState := evts.foldl wsStep wsInit

/-- Adjacency invariant of `spaceOutPipes` output: every `'|'` is surrounded
by spaces.  This is what makes the table regex unmatchable on raw-mode
output and the second replace of `markdownTableToAscii` a no-op. -/
def pipeSpaced (s : List Char) : Prop :=
  s.Chain' (fun a b => (a = '|' → b = ' ') ∧ (b = '|' → a = ' '))

/-! ## Helper lemmas -/

theorem filter_empty_eq_nil {s : List String} (h : ∀ x ∈ s, x ≠ "") :
    s.filter (fun v => v == "") = [] := by
  rw [List.filter_eq_nil_iff]
  intro a ha
  simpa using h a ha

theorem mem_of_mem_evictOldest {k : Nat} {s : List String} {x : String}
    (hx : x ∈ evictOldest k s) : x ∈ s := by
  rcases List.mem_append.mp hx with hx' | hx'
  · exact List.mem_of_mem_take (List.mem_filter.mp hx').1
  · exact List.mem_of_mem_drop hx'

theorem evictOldest_of_nonempty {k : Nat} {s : List String}
    (h : ∀ x ∈ s, x ≠ "") : evictOldest k s = s.drop k := by
  unfold evictOldest
  rw [filter_empty_eq_nil (fun x hx => h x (List.mem_of_mem_take hx))]
  rfl

theorem mem_of_mem_markProcessed {opts : DedupeOptions} {s : List String}
    {id x : String} (hx : x ∈ markProcessed opts s id) : x ∈ s ∨ x = id := by
  unfold markProcessed at hx
  by_cases h1 : s.length ≥ opts.maxSize <;>
    simp only [h1, if_true, if_false] at hx <;>
    split at hx
  · exact Or.inl (mem_of_mem_evictOldest hx)
  · rcases List.mem_append.mp hx with hx' | hx'
    · exact Or.inl (mem_of_mem_evictOldest hx')
    · exact Or.inr (List.mem_singleton.mp hx')
  · exact Or.inl hx
  · rcases List.mem_append.mp hx with hx' | hx'
    · exact Or.inl hx'
    · exact Or.inr (List.mem_singleton.mp hx')

theorem markProcessed_length_le {opts : DedupeOptions}
    (hth : opts.cleanupThreshold < opts.maxSize) {s : List String}
    (hs : ∀ x ∈ s, x ≠ "") (hlen : s.length ≤ opts.maxSize) (id : String) :
    (markProcessed opts s id).length ≤ opts.maxSize := by
  unfold markProcessed
  by_cases hc : s.length ≥ opts.maxSize
  · have hdrop : evictOldest (s.length - opts.cleanupThreshold) s =
        s.drop (s.length - opts.cleanupThreshold) := evictOldest_of_nonempty hs
    simp only [hc, if_true, hdrop]
    have hl : (s.drop (s.length - opts.cleanupThreshold)).length =
        opts.cleanupThreshold := by
      rw [List.length_drop]; omega
    split
    · omega
    · simp only [List.length_append, List.length_cons, List.length_nil, hl]
      omega
  · simp only [hc, if_false]
    split
    · omega
    · simp only [List.length_append, List.length_cons, List.length_nil]
      omega

theorem foldl_markProcessed_invariant {opts : DedupeOptions}
    (hth : opts.cleanupThreshold < opts.maxSize) :
    ∀ (ids : List String) (s : List String), (∀ x ∈ s, x ≠ "") →
      s.length ≤ opts.maxSize → (∀ id ∈ ids, id ≠ "") →
      (ids.foldl (markProcessed opts) s).length ≤ opts.maxSize := by
  intro ids
  induction ids with
  | nil => intro s _ hlen _; simpa using hlen
  | cons id rest ih =>
    intro s hs hlen hids
    simp only [List.foldl_cons]
    refine ih (markProcessed opts s id) ?_ ?_ ?_
    · intro x hx
      rcases mem_of_mem_markProcessed hx with hx' | rfl
      · exact hs x hx'
      · exact hids x (List.mem_cons_self _ _)
    · exact markProcessed_length_le hth hs hlen id
    · exact fun i hi => hids i (List.mem_cons_of_mem _ hi)

/-- C3, corrected claim: with non-empty message ids (and a cleanup threshold
below `maxSize`), `size()` never exceeds `maxSize`, and a `markProcessed`
call finding `size ≥ maxSize` first evicts exactly `size - cleanupThreshold`
entries in insertion order (oldest first, the prefix of the insertion
sequence, independent of `isProcessed` accesses) and then inserts the new
id.  (The eviction loop skips ids that are the empty string — see the
counterexample — so the claim is restricted to non-empty ids.) -/
theorem dedupe_bounded_fifo_eviction (opts : DedupeOptions)
    (hth : opts.cleanupThreshold < opts.maxSize) :
    (∀ ids : List String, (∀ id ∈ ids, id ≠ "") →
      (runMark opts ids).length ≤ opts.maxSize) ∧
    (∀ (s : List String) (id : String), (∀ x ∈ s, x ≠ "") →
      opts.maxSize ≤ s.length →
      markProcessed opts s id =
        (if id ∈ s.drop (s.length - opts.cleanupThreshold) then
          s.drop (s.length - opts.cleanupThreshold)
        else s.drop (s.length - opts.cleanupThreshold) ++ [id])) := by
  constructor
  · intro ids hids
    exact foldl_markProcessed_invariant hth ids [] (by simp) (by simp) hids
  · intro s id hs hc
    unfold markProcessed
    rw [if_pos hc, evictOldest_of_nonempty hs]

/-- C3 witness: concrete application of `dedupe_bounded_fifo_eviction` at
the default options and a two-id run. -/
theorem dedupe_bounded_fifo_eviction_witness :
    (800 < 1000 ∧ (∀ id ∈ ["m1", "m2"], id ≠ "")) ∧
    (runMark ⟨1000, 800⟩ ["m1", "m2"]).length ≤ 1000 :=
  ⟨⟨by decide, by decide⟩,
    (dedupe_bounded_fifo_eviction ⟨1000, 800⟩ (by decide)).1 ["m1", "m2"]
      (by decide)⟩

/-- C3 counterexample: the claim fails as stated.  With `maxSize = 1`,
`cleanupThreshold = 0`, marking `""` and then `"a"` leaves 2 entries: the
eviction loop's `if (value)` check skips the falsy empty-string id, so
nothing is evicted (not `size - cleanupThreshold = 1` entries) and `size()`
exceeds `maxSize`. -/
theorem dedupe_claim_counterexample :
    runMark ⟨1, 0⟩ ["", "a"] = ["", "a"] ∧
    ¬((runMark ⟨1, 0⟩ ["", "a"]).length ≤ 1) := by decide

theorem lookupHist_eq_none_of_fresh {st : HistState} {c : String}
    (h : ∀ k ∈ keys st, k ≠ c) : lookupHist st c = none := by
  unfold lookupHist
  rw [List.find?_eq_none.mpr]
  · rfl
  · intro p hp
    simpa using h p.1 (List.mem_map_of_mem Prod.fst hp)

theorem eraseKey_eq_self_of_fresh {st : HistState} {c : String}
    (h : ∀ k ∈ keys st, k ≠ c) : eraseKey st c = st := by
  unfold eraseKey
  rw [List.filter_eq_self]
  intro p hp
  simpa using h p.1 (List.mem_map_of_mem Prod.fst hp)

theorem record_fresh {opts : HistOptions} {st : HistState} {c : String}
    (e : HistEntry) (hfresh : ∀ k ∈ keys st, k ≠ c)
    (hlen : st.length ≤ opts.maxGroups) (hlim : 1 ≤ opts.historyLimit) :
    record opts st c e = st ++ [(c, [e])] := by
  have hnogt : ¬(st.length > opts.maxGroups) := by omega
  have htrim : trimHist opts.historyLimit [e] = [e] := by
    unfold trimHist
    simp only [List.length_cons, List.length_nil]
    rw [if_neg (by omega)]
  simp only [record, if_neg hnogt, lookupHist_eq_none_of_fresh hfresh,
    eraseKey_eq_self_of_fresh hfresh, Option.getD_none, List.nil_append, htrim]

theorem foldl_record_fresh (opts : HistOptions) (hlim : 1 ≤ opts.historyLimit)
    (e : HistEntry) :
    ∀ (ids : List String) (st : HistState), ids.Nodup →
      (∀ i ∈ ids, ∀ k ∈ keys st, k ≠ i) →
      st.length + ids.length ≤ opts.maxGroups + 1 →
      ids.foldl (fun acc i => record opts acc i e) st =
        st ++ ids.map (fun i => (i, [e])) := by
  intro ids
  induction ids with
  | nil => intro st _ _ _; simp
  | cons i rest ih =>
    intro st hnodup hfresh hlen
    have hstep : record opts st i e = st ++ [(i, [e])] :=
      record_fresh e (hfresh i (List.mem_cons_self _ _))
        (by simp only [List.length_cons] at hlen; omega) hlim
    simp only [List.foldl_cons, hstep]
    rw [ih (st ++ [(i, [e])]) (List.Nodup.of_cons hnodup) ?_ ?_]
    · simp
    · intro j hj k hk
      have hkeys : keys (st ++ [(i, [e])]) = keys st ++ [i] := by
        simp [keys]
      rw [hkeys] at hk
      rcases List.mem_append.mp hk with hk' | hk'
      · exact hfresh j (List.mem_cons_of_mem _ hj) k hk'
      · rcases List.mem_singleton.mp hk' with rfl
        intro hij
        exact (List.nodup_cons.mp hnodup).1 (hij ▸ hj)
    · simp only [List.length_append, List.length_cons, List.length_nil] at *
      omega

/-- C1 counterexample: the claim fails as stated.  Recording into 101
distinct conversations (default cap `maxGroups = 100`) leaves 101 tracked
conversations — exceeding `maxGroups` — and the least-recently-touched
conversation (`"a"`, the first recorded) is still tracked, not evicted:
`record` evicts only when the map size already *exceeds* `maxGroups` before
insertion, i.e. only at the 102nd distinct conversation. -/
theorem history_cap_counterexample :
    groupCount (runRecords {} ((List.range 101).map
      (fun n => (String.mk (List.replicate (n + 1) 'a'),
        (⟨"s", "b", 0, "m"⟩ : HistEntry))))) = 101 ∧
    "a" ∈ keys (runRecords {} ((List.range 101).map
      (fun n => (String.mk (List.replicate (n + 1) 'a'),
        (⟨"s", "b", 0, "m"⟩ : HistEntry))))) := by
  have hinj : Function.Injective
      (fun n => String.mk (List.replicate (n + 1) 'a')) := by
    intro a b hab
    have := congrArg (fun s => s.data.length) hab
    simpa using this
  have hnodup : ((List.range 101).map
      (fun n => String.mk (List.replicate (n + 1) 'a'))).Nodup :=
    List.Nodup.map hinj (List.nodup_range 101)
  have hmm : (List.range 101).map
      (fun n => (String.mk (List.replicate (n + 1) 'a'),
        (⟨"s", "b", 0, "m"⟩ : HistEntry))) =
      ((List.range 101).map
        (fun n => String.mk (List.replicate (n + 1) 'a'))).map
        (fun i => (i, (⟨"s", "b", 0, "m"⟩ : HistEntry))) := by
    rw [List.map_map]
    rfl
  have hrw : runRecords {} ((List.range 101).map
      (fun n => (String.mk (List.replicate (n + 1) 'a'),
        (⟨"s", "b", 0, "m"⟩ : HistEntry)))) =
      ((List.range 101).map
        (fun n => String.mk (List.replicate (n + 1) 'a'))).map
        (fun i => (i, [(⟨"s", "b", 0, "m"⟩ : HistEntry)])) := by
    unfold runRecords
    rw [hmm, List.foldl_map]
    simpa using foldl_record_fresh {} (by decide) ⟨"s", "b", 0, "m"⟩
      ((List.range 101).map (fun n => String.mk (List.replicate (n + 1) 'a')))
      [] hnodup (by simp [keys]) (by simp)
  refine ⟨?_, ?_⟩
  · rw [hrw]
    simp [groupCount]
  · rw [hrw]
    have h0 : ("a" : String) = String.mk (List.replicate (0 + 1) 'a') := rfl
    rw [h0]
    simp only [keys, List.map_map]
    exact List.mem_map_of_mem _ (by simp)

theorem evictGroups_of_nonempty {k : Nat} {st : HistState}
    (h : ∀ key ∈ keys st, key ≠ "") : evictGroups k st = st.drop k := by
  unfold evictGroups
  rw [show (st.take k).filter (fun p => p.1 == "") = [] from ?_]
  · rfl
  · rw [List.filter_eq_nil_iff]
    intro p hp
    simpa using h p.1 (List.mem_map_of_mem Prod.fst (List.mem_of_mem_take hp))

theorem mem_keys_evictGroups {k : Nat} {st : HistState} {key : String}
    (h : key ∈ keys (evictGroups k st)) : key ∈ keys st := by
  simp only [keys, List.mem_map] at h ⊢
  rcases h with ⟨p, hp, rfl⟩
  unfold evictGroups at hp
  rcases List.mem_append.mp hp with hp' | hp'
  · exact ⟨p, List.mem_of_mem_take (List.mem_filter.mp hp').1, rfl⟩
  · exact ⟨p, List.mem_of_mem_drop hp', rfl⟩

theorem mem_keys_eraseKey {st : HistState} {c key : String}
    (h : key ∈ keys (eraseKey st c)) : key ∈ keys st := by
  simp only [keys, List.mem_map] at h ⊢
  rcases h with ⟨p, hp, rfl⟩
  unfold eraseKey at hp
  exact ⟨p, (List.mem_filter.mp hp).1, rfl⟩

theorem record_eq (opts : HistOptions) (st : HistState) (c : String)
    (e : HistEntry) :
    record opts st c e =
      (let st1 := if st.length > opts.maxGroups then
          evictGroups (st.length - opts.maxGroups) st
        else st
      eraseKey st1 c ++
        [(c, trimHist opts.historyLimit (((lookupHist st1 c).getD []) ++ [e]))]) :=
  rfl

theorem mem_keys_record {opts : HistOptions} {st : HistState} {c key : String}
    {e : HistEntry} (h : key ∈ keys (record opts st c e)) :
    key ∈ keys st ∨ key = c := by
  rw [record_eq] at h
  simp only [keys, List.map_append, List.map_cons, List.map_nil] at h
  rcases List.mem_append.mp h with h' | h'
  · left
    have h1 : key ∈ keys (eraseKey (if st.length > opts.maxGroups then
        evictGroups (st.length - opts.maxGroups) st else st) c) := h'
    have h2 := mem_keys_eraseKey h1
    split at h2
    · exact mem_keys_evictGroups h2
    · exact h2
  · right
    simpa using h'

theorem record_length_le {opts : HistOptions} {st : HistState} {c : String}
    (e : HistEntry) (hkeys : ∀ k ∈ keys st, k ≠ "")
    (hlen : st.length ≤ opts.maxGroups + 1) :
    (record opts st c e).length ≤ opts.maxGroups + 1 := by
  rw [record_eq]
  by_cases hgt : st.length > opts.maxGroups
  · have hev : evictGroups (st.length - opts.maxGroups) st =
        st.drop (st.length - opts.maxGroups) := evictGroups_of_nonempty hkeys
    simp only [hgt, if_true, hev, List.length_append, List.length_cons,
      List.length_nil]
    have h1 : (eraseKey (st.drop (st.length - opts.maxGroups)) c).length ≤
        (st.drop (st.length - opts.maxGroups)).length :=
      List.length_filter_le _ _
    have h2 : (st.drop (st.length - opts.maxGroups)).length =
        opts.maxGroups := by
      rw [List.length_drop]
      omega
    omega
  · simp only [hgt, if_false, List.length_append, List.length_cons,
      List.length_nil]
    have h1 : (eraseKey st c).length ≤ st.length := List.length_filter_le _ _
    omega

/-- C1, corrected claim: for `record`-call sequences with non-empty
conversation ids, the tracked-conversation count never exceeds
`maxGroups + 1` (not `maxGroups`: eviction runs only when the size already
exceeds the cap before insertion, so the 101st distinct conversation is
admitted and eviction happens at the 102nd); when a `record` call does find
`size > maxGroups`, the least-recently-touched conversation (the front of
the insertion order, whose position any `record` on it refreshes — see the
third conjunct: the recorded conversation always ends up most-recent) is
fully evicted. -/
theorem history_cap_bound_and_eviction (opts : HistOptions) :
    (∀ calls : List (String × HistEntry), (∀ p ∈ calls, p.1 ≠ "") →
      groupCount (runRecords opts calls) ≤ opts.maxGroups + 1) ∧
    (∀ (st : HistState) (c : String) (e : HistEntry) (k0 : String)
      (h0 : List HistEntry) (rest : HistState),
      st = (k0, h0) :: rest → st.length > opts.maxGroups → k0 ≠ "" →
      k0 ≠ c → k0 ∉ keys rest → k0 ∉ keys (record opts st c e)) ∧
    (∀ (st : HistState) (c : String) (e : HistEntry),
      (keys (record opts st c e)).getLast? = some c) := by
  refine ⟨?_, ?_, ?_⟩
  · intro calls hcalls
    suffices h : ∀ (cs : List (String × HistEntry)) (st : HistState),
        (∀ p ∈ cs, p.1 ≠ "") → (∀ k ∈ keys st, k ≠ "") →
        st.length ≤ opts.maxGroups + 1 →
        (cs.foldl (fun acc p => record opts acc p.1 p.2) st).length ≤
          opts.maxGroups + 1 by
      exact h calls [] hcalls (by simp [keys]) (by simp)
    intro cs
    induction cs with
    | nil => intro st _ _ hlen; simpa using hlen
    | cons p rest ih =>
      intro st hcs hkeys hlen
      simp only [List.foldl_cons]
      refine ih _ (fun q hq => hcs q (List.mem_cons_of_mem _ hq)) ?_
        (record_length_le p.2 hkeys hlen)
      intro k hk
      rcases mem_keys_record hk with hk' | rfl
      · exact hkeys k hk'
      · exact hcs p (List.mem_cons_self _ _)
  · intro st c e k0 h0 rest hst hgt hk0ne hk0c hk0rest hmem
    rw [record_eq] at hmem
    simp only [hgt, if_true, keys, List.map_append, List.map_cons,
      List.map_nil] at hmem
    rcases List.mem_append.mp hmem with h' | h'
    · have h1 : k0 ∈ keys (evictGroups (st.length - opts.maxGroups) st) :=
        mem_keys_eraseKey h'
      simp only [keys, List.mem_map] at h1
      rcases h1 with ⟨p, hp, hpk⟩
      unfold evictGroups at hp
      rcases List.mem_append.mp hp with hp' | hp'
      · have := (List.mem_filter.mp hp').2
        rw [hpk] at this
        exact hk0ne (by simpa using this)
      · obtain ⟨j, hj⟩ : ∃ j, st.length - opts.maxGroups = j + 1 :=
          ⟨st.length - opts.maxGroups - 1, by omega⟩
        rw [hj, hst, List.drop_succ_cons] at hp'
        have hpr : p ∈ rest := List.mem_of_mem_drop hp'
        exact hk0rest (hpk ▸ List.mem_map_of_mem Prod.fst hpr)
    · exact hk0c (by simpa using h')
  · intro st c e
    rw [record_eq]
    simp only [keys, List.map_append, List.map_cons, List.map_nil]
    exact List.getLast?_concat _

/-- C1 witness: concrete applications of all three conjuncts of
`history_cap_bound_and_eviction`. -/
theorem history_cap_bound_and_eviction_witness :
    ((∀ p ∈ [(("g1" : String), (⟨"s", "b", 0, "m"⟩ : HistEntry))], p.1 ≠ "") ∧
      groupCount (runRecords {} [("g1", ⟨"s", "b", 0, "m"⟩)]) ≤ 100 + 1) ∧
    "x" ∉ keys (record ⟨10, 1⟩ [("x", []), ("y", [])] "z" ⟨"s", "b", 0, "m"⟩) ∧
    (keys (record {} [] "c1" ⟨"s", "b", 0, "m"⟩)).getLast? = some "c1" :=
  ⟨⟨by decide, (history_cap_bound_and_eviction {}).1 _ (by decide)⟩,
   (history_cap_bound_and_eviction ⟨10, 1⟩).2.1 [("x", []), ("y", [])] "z"
     ⟨"s", "b", 0, "m"⟩ "x" [] [("y", [])] rfl (by decide) (by decide)
     (by decide) (by decide),
   (history_cap_bound_and_eviction {}).2.2 [] "c1" ⟨"s", "b", 0, "m"⟩⟩

/-- C10: `clear(chatId)` on an untracked conversation is not a no-op — it
inserts the conversation with an empty entry list (`Map.set`), increasing
`groupCount()` by one; and since the `maxGroups` eviction check runs only
inside `record`, repeated `clear` calls on distinct unknown ids grow the
tracked-conversation count without bound (by exactly the number of such
calls, for any starting state and any count). -/
theorem clear_unknown_grows_unboundedly :
    (∀ (st : HistState) (c : String), lookupHist st c = none →
      groupCount (clearHist st c) = groupCount st + 1 ∧
      lookupHist (clearHist st c) c = some []) ∧
    (∀ (st : HistState) (cs : List String), cs.Nodup →
      (∀ c ∈ cs, ∀ k ∈ keys st, k ≠ c) →
      groupCount (cs.foldl clearHist st) = groupCount st + cs.length) := by
  have hfreshclear : ∀ (st : HistState) (c : String),
      (∀ k ∈ keys st, k ≠ c) → clearHist st c = st ++ [(c, [])] := by
    intro st c hf
    unfold clearHist
    rw [if_neg (by rw [lookupHist_eq_none_of_fresh hf]; simp)]
  constructor
  · intro st c hl
    have hnone : st.find? (fun p => p.1 == c) = none :=
      Option.map_eq_none'.mp hl
    have hcl : clearHist st c = st ++ [(c, [])] := by
      unfold clearHist
      rw [if_neg (by rw [hl]; simp)]
    constructor
    · rw [hcl]
      simp [groupCount]
    · rw [hcl]
      unfold lookupHist
      rw [List.find?_append, hnone]
      simp
  · intro st cs
    induction cs generalizing st with
    | nil => intro _ _; simp
    | cons c rest ih =>
      intro hnodup hfresh
      have hcl : clearHist st c = st ++ [(c, [])] :=
        hfreshclear st c (fun k hk => hfresh c (List.mem_cons_self _ _) k hk)
      simp only [List.foldl_cons, hcl]
      rw [ih (st ++ [(c, [])]) (List.Nodup.of_cons hnodup) ?_]
      · simp only [groupCount, List.length_append, List.length_cons,
          List.length_nil, List.length_cons]
        omega
      · intro j hj k hk
        have hkeys : keys (st ++ [(c, [])]) = keys st ++ [c] := by simp [keys]
        rw [hkeys] at hk
        rcases List.mem_append.mp hk with hk' | hk'
        · exact hfresh j (List.mem_cons_of_mem _ hj) k hk'
        · rcases List.mem_singleton.mp hk' with rfl
          intro hij
          exact (List.nodup_cons.mp hnodup).1 (hij ▸ hj)

/-- C10 witness: concrete applications of both conjuncts of
`clear_unknown_grows_unboundedly`. -/
theorem clear_unknown_grows_unboundedly_witness :
    (lookupHist [(("g1" : String), ([] : List HistEntry))] "g2" = none ∧
      groupCount (clearHist [("g1", [])] "g2") =
        groupCount [(("g1" : String), ([] : List HistEntry))] + 1 ∧
      lookupHist (clearHist [("g1", [])] "g2") "g2" = some []) ∧
    groupCount (["u1", "u2", "u3"].foldl clearHist []) = 0 + 3 :=
  ⟨⟨by decide,
    clear_unknown_grows_unboundedly.1 [("g1", [])] "g2" (by decide)⟩,
   clear_unknown_grows_unboundedly.2 [] ["u1", "u2", "u3"] (by decide)
     (by decide)⟩

/-- C2: evaluation of the embedded DM gate on its four policies, at the
failing input of the code bug.  The first four conjuncts match the claim
(`disabled` denies, `open` allows, `allowlist` allows on empty `allowFrom`
and denies a non-listed sender).  The last conjunct exhibits the divergence:
under `dmPolicy = "pairing"` with non-empty `allowFrom = ["ou_alice"]`, the
sender `"ou_bob"` (not listed) is ALLOWED through the gate — the code's
`if (!allowed && dmPolicy === "allowlist")` only denies in allowlist mode
and falls through for pairing, contradicting the claim, the spec, and the
plugin's own README (pairing requires admin approval before responding). -/
theorem dm_policy_gate_evaluation :
    gateDecision { dmPolicy := some "disabled" }
      { chatType := "direct", senderId := "ou_bob" } none none =
      .deny "dmPolicy=disabled" ∧
    gateDecision { dmPolicy := some "open", allowFrom := some ["ou_alice"] }
      { chatType := "direct", senderId := "ou_bob" } none none = .allow ∧
    gateDecision { dmPolicy := some "allowlist", allowFrom := some [] }
      { chatType := "direct", senderId := "ou_bob" } none none = .allow ∧
    gateDecision { dmPolicy := some "allowlist", allowFrom := some ["ou_alice"] }
      { chatType := "direct", senderId := "ou_bob" } none none =
      .deny "unauthorized DM sender" ∧
    gateDecision { dmPolicy := some "pairing", allowFrom := some ["ou_alice"] }
      { chatType := "direct", senderId := "ou_bob" } none none = .allow := by
  decide

/-- C4: for a group event under a non-disabled group policy with
`requireMention` true and the responder not mentioned, the gate allows the
event if and only if neither the responder's open id nor its name is
resolved (`botOpenId`/`botName` absent or empty — JavaScript truthiness);
whenever either identity is resolved, the event is denied. -/
theorem group_mention_fail_open (account : AccountCfg) (message : InboundMsg)
    (botOpenId botName : Option String)
    (hg : message.chatType = "group")
    (hp : account.groupPolicy.getD "allowlist" ≠ "disabled")
    (hr : account.requireMention = true)
    (hm : ctxIsBotMentioned message botOpenId botName = false) :
    (gateDecision account message botOpenId botName = .allow ↔
      (jsTruthy botOpenId || jsTruthy botName) = false) := by
  have hgrp : (message.chatType == "group") = true := by simp [hg]
  have hgp : (account.groupPolicy.getD "allowlist" == "disabled") = false := by
    simpa using hp
  cases hb : jsTruthy botOpenId || jsTruthy botName <;>
    simp [gateDecision, hgrp, hgp, hr, hm, hb]

/-- C4 witness: concrete application of `group_mention_fail_open` to the
default account (no bot identity resolved): the gate fail-opens. -/
theorem group_mention_fail_open_witness :
    ((({ chatType := "group" } : InboundMsg).chatType = "group" ∧
      ({} : AccountCfg).groupPolicy.getD "allowlist" ≠ "disabled" ∧
      ({} : AccountCfg).requireMention = true ∧
      ctxIsBotMentioned { chatType := "group" } none none = false) ∧
    (gateDecision {} { chatType := "group" } none none = .allow ↔
      (jsTruthy none || jsTruthy none) = false)) :=
  ⟨⟨rfl, by decide, rfl, by decide⟩,
   group_mention_fail_open {} { chatType := "group" } none none rfl
     (by decide) rfl (by decide)⟩

/-- C5 counterexample: the claim fails as stated.  For a group message whose
mentions list holds only the @everyone token (`key = "@_all"`), with the
responder's id and name resolved but not matching, the gate's own mentioned
computation (`isBotMentioned` local to `src/context.ts`) is FALSE — it has no
`@_all` clause — while the exported webhook helper (`src/webhook.ts`) does
count the @everyone token and returns true. -/
theorem gate_atall_mention_counterexample :
    ctxIsBotMentioned
      { chatType := "group", text := some "@_all hi",
        displayText := some "@all staff hi",
        mentions := some [⟨"@_all", "", "all staff"⟩] }
      (some "ou_bot") (some "Claw") = false ∧
    webhookIsBotMentioned
      { chatType := "group", text := some "@_all hi",
        displayText := some "@all staff hi",
        mentions := some [⟨"@_all", "", "all staff"⟩] }
      (some "ou_bot") (some "Claw") = true := by decide

/-- C5, corrected claim: an @everyone token (`"@_all"` mention key) counts
as mentioning the responder only in the webhook-level helper
`isBotMentioned` of `src/webhook.ts`; the gate's own mentioned computation
ignores the token (see the counterexample). -/
theorem webhook_atall_counts_as_mention (message : InboundMsg)
    (botOpenId botName : Option String) (ms : List Mention)
    (hms : message.mentions = some ms) (m : Mention) (hm : m ∈ ms)
    (hkey : m.key = "@_all") :
    webhookIsBotMentioned message botOpenId botName = true := by
  unfold webhookIsBotMentioned
  rw [hms]
  have hne : (ms.length == 0) = false := by
    have hne' : ms ≠ [] := by rintro rfl; cases hm
    simpa [List.length_eq_zero] using hne'
  simp only [hne, Bool.false_eq_true, if_false, List.any_eq_true]
  exact ⟨m, hm, by simp [hkey]⟩

/-- C5 witness: concrete application of `webhook_atall_counts_as_mention`. -/
theorem webhook_atall_counts_as_mention_witness :
    ((({ chatType := "group", mentions := some [⟨"@_all", "", "everyone"⟩] } :
        InboundMsg).mentions = some [⟨"@_all", "", "everyone"⟩] ∧
      (⟨"@_all", "", "everyone"⟩ : Mention) ∈ [⟨"@_all", "", "everyone"⟩] ∧
      (⟨"@_all", "", "everyone"⟩ : Mention).key = "@_all") ∧
    webhookIsBotMentioned
      { chatType := "group", mentions := some [⟨"@_all", "", "everyone"⟩] }
      none none = true) :=
  ⟨⟨rfl, by decide, rfl⟩,
   webhook_atall_counts_as_mention
     { chatType := "group", mentions := some [⟨"@_all", "", "everyone"⟩] }
     none none [⟨"@_all", "", "everyone"⟩] rfl ⟨"@_all", "", "everyone"⟩
     (List.mem_singleton.mpr rfl) rfl⟩

/-- C7: normalization never throws and falls back to the raw content.
`parseWebhookEvent` is a total function of the payload (first conjunct: a
message-receive callback always yields a `message` result built by
`normalizeMessage`), and whenever the content fails to parse as JSON
(`jp` throws) or the message kind has no dedicated branch, the normalized
`text` is the raw content string verbatim. -/
theorem normalize_fallback_raw_content
    (jp : String → Except String ContentObj) (account : AccountCfg)
    (e : MsgReceiveEvent)
    (h : (∃ err, jp e.message.content = .error err) ∨
      e.message.messageType ∉ recognizedKinds) :
    parseWebhookEvent jp account (.eventCallback (.messageReceive e)) =
      .message (normalizeMessage jp e) ∧
    (normalizeMessage jp e).text = some e.message.content := by
  refine ⟨rfl, ?_⟩
  have htext : (extractContent jp e.message).1 = some e.message.content := by
    rcases h with ⟨err, herr⟩ | hkind
    · unfold extractContent
      rw [herr]
    · unfold extractContent
      cases hjp : jp e.message.content with
      | error err => rfl
      | ok obj =>
        simp only [recognizedKinds, List.mem_cons, List.not_mem_nil, or_false,
          not_or] at hkind
        obtain ⟨h1, h2, h3, h4, h5, h6, h7, h8, h9, h10⟩ := hkind
        simp [h1, h2, h3, h4, h5, h6, h7, h8, h9, h10]
  unfold normalizeMessage
  rcases hec : extractContent jp e.message with ⟨t, ik, fk, fn⟩
  rw [hec] at htext
  simp only at htext
  simp only [hec]
  simpa using htext

/-- C7 witness: concrete application of `normalize_fallback_raw_content`
with a throwing JSON parser: the normalized text is the raw content. -/
theorem normalize_fallback_raw_content_witness :
    ((∃ err, (fun _ : String => (Except.error "bad" : Except String ContentObj))
        ({ message := { content := "hello" } } : MsgReceiveEvent).message.content =
        .error err) ∨
      ({ message := { content := "hello" } } :
        MsgReceiveEvent).message.messageType ∉ recognizedKinds) ∧
    (parseWebhookEvent (fun _ => .error "bad") {}
        (.eventCallback (.messageReceive { message := { content := "hello" } })) =
        .message (normalizeMessage (fun _ => .error "bad")
          { message := { content := "hello" } }) ∧
      (normalizeMessage (fun _ => .error "bad")
        { message := { content := "hello" } }).text = some "hello") :=
  ⟨Or.inl ⟨"bad", rfl⟩,
   normalize_fallback_raw_content (fun _ => .error "bad") {}
     { message := { content := "hello" } } (Or.inl ⟨"bad", rfl⟩)⟩

/-- C8: the reply-context resolver returns the inbound message unchanged
whenever the message has no (truthy) `parentId`, or the parent fetch throws,
or it settles not-ok, or it returns no message — enrichment failure never
alters the event. -/
theorem reply_context_failure_identity
    (fetch : Except String GetMessageResult) (inbound : InboundMsg)
    (h : jsTruthy inbound.parentId = false ∨
      (∃ err, fetch = .error err) ∨
      (∃ r, fetch = .ok r ∧ (r.ok = false ∨ r.message = none))) :
    fetchReplyContext fetch inbound = inbound := by
  rcases h with hp | ⟨err, rfl⟩ | ⟨r, rfl, hr⟩
  · simp [fetchReplyContext, hp]
  · by_cases hpt : jsTruthy inbound.parentId <;> simp [fetchReplyContext, hpt]
  · rcases hr with hok | hmsg
    · rcases hm : r.message with _ | m
      · by_cases hpt : jsTruthy inbound.parentId <;>
          simp [fetchReplyContext, hpt, hm]
      · by_cases hpt : jsTruthy inbound.parentId <;>
          simp [fetchReplyContext, hpt, hm, hok]
    · by_cases hpt : jsTruthy inbound.parentId <;>
        simp [fetchReplyContext, hpt, hmsg]

/-- C8 witness: concrete application of `reply_context_failure_identity` to
a reply whose parent fetch throws. -/
theorem reply_context_failure_identity_witness :
    (jsTruthy ({ parentId := some "om_parent" } : InboundMsg).parentId = false ∨
      (∃ err, (Except.error "boom" : Except String GetMessageResult) =
        .error err) ∨
      (∃ r, (Except.error "boom" : Except String GetMessageResult) = .ok r ∧
        (r.ok = false ∨ r.message = none))) ∧
    fetchReplyContext (Except.error "boom") { parentId := some "om_parent" } =
      { parentId := some "om_parent" } :=
  ⟨Or.inr (Or.inl ⟨"boom", rfl⟩),
   reply_context_failure_identity (Except.error "boom")
     { parentId := some "om_parent" } (Or.inr (Or.inl ⟨"boom", rfl⟩))⟩

/-- C9: native WebSocket reconnection.  (a) After `n` failed attempts since
last reaching connected (`reconnectAttempts = n < 10`), `onclose` schedules
the next reconnection after `baseReconnectDelay * 2 ^ n` = 1000ms·2ⁿ and
increments the counter; (b) the attempt counter never exceeds
`maxReconnectAttempts = 10` over any event sequence; (c) once 10 attempts
were made, `onclose` schedules nothing and the client remains disconnected;
(d) reaching connected (`onopen`) resets the counter to zero. -/
theorem ws_backoff_bounded_reset :
    (∀ s : WSState, s.reconnectAttempts < maxReconnectAttempts →
      wsStep s .onClose =
        { connState := "reconnecting",
          reconnectAttempts := s.reconnectAttempts + 1,
          pendingReconnectDelay :=
            some (baseReconnectDelay * 2 ^ s.reconnectAttempts),
          heartbeatActive := false }) ∧
    (∀ evts : List WSEvent,
      (wsRun evts).reconnectAttempts ≤ maxReconnectAttempts) ∧
    (∀ s : WSState, maxReconnectAttempts ≤ s.reconnectAttempts →
      wsStep s .onClose =
        { connState := "disconnected",
          reconnectAttempts := s.reconnectAttempts,
          pendingReconnectDelay := none,
          heartbeatActive := false }) ∧
    (∀ s : WSState, (wsStep s .onOpen).reconnectAttempts = 0) := by
  refine ⟨?_, ?_, ?_, ?_⟩
  · intro s h
    cases s
    simp [wsStep, h]
  · have hstep : ∀ (s : WSState) (ev : WSEvent),
        s.reconnectAttempts ≤ maxReconnectAttempts →
        (wsStep s ev).reconnectAttempts ≤ maxReconnectAttempts := by
      intro s ev hs
      cases ev
      · simp [wsStep]
      · simp only [wsStep]
        split
        · simp only
          omega
        · simpa using hs
      · simpa [wsStep] using hs
      · simp [wsStep]
    intro evts
    suffices hgen : ∀ (s : WSState),
        s.reconnectAttempts ≤ maxReconnectAttempts →
        (evts.foldl wsStep s).reconnectAttempts ≤ maxReconnectAttempts from
      hgen wsInit (by simp [wsInit, maxReconnectAttempts])
    induction evts with
    | nil => intro s hs; simpa using hs
    | cons ev rest ih =>
      intro s hs
      simp only [List.foldl_cons]
      exact ih (wsStep s ev) (hstep s ev hs)
  · intro s h
    have hnot : ¬(s.reconnectAttempts < maxReconnectAttempts) := by omega
    cases s
    simp [wsStep, hnot]
  · intro s
    rfl

/-- C9 witness: concrete applications of all four conjuncts of
`ws_backoff_bounded_reset` (third failure → 8-second delay; stopped client
stays disconnected; `onopen` resets). -/
theorem ws_backoff_bounded_reset_witness :
    ((⟨"reconnecting", 3, none, false⟩ :
        WSState).reconnectAttempts < maxReconnectAttempts ∧
      wsStep ⟨"reconnecting", 3, none, false⟩ .onClose =
        { connState := "reconnecting", reconnectAttempts := 3 + 1,
          pendingReconnectDelay := some (baseReconnectDelay * 2 ^ 3),
          heartbeatActive := false }) ∧
    (wsRun [.onClose, .onOpen, .onClose]).reconnectAttempts ≤
      maxReconnectAttempts ∧
    (maxReconnectAttempts ≤ (⟨"disconnected", 10, none, false⟩ :
        WSState).reconnectAttempts ∧
      wsStep ⟨"disconnected", 10, none, false⟩ .onClose =
        { connState := "disconnected", reconnectAttempts := 10,
          pendingReconnectDelay := none, heartbeatActive := false }) ∧
    (wsStep ⟨"connecting", 7, none, false⟩ .onOpen).reconnectAttempts = 0 :=
  ⟨⟨by decide, ws_backoff_bounded_reset.1 ⟨"reconnecting", 3, none, false⟩
      (by decide)⟩,
   ws_backoff_bounded_reset.2.1 [.onClose, .onOpen, .onClose],
   ⟨by decide, ws_backoff_bounded_reset.2.2.1 ⟨"disconnected", 10, none, false⟩
      (by decide)⟩,
   ws_backoff_bounded_reset.2.2.2 ⟨"connecting", 7, none, false⟩⟩

theorem spaceOutPipes_head_ne_pipe : ∀ l : List Char,
    (spaceOutPipes l).head? ≠ some '|' := by
  intro l h
  cases l with
  | nil => simp [spaceOutPipes] at h
  | cons c rest =>
    unfold spaceOutPipes at h
    by_cases hc : c == '|'
    · rw [if_pos hc] at h
      simp at h
    · rw [if_neg hc] at h
      simp at h
      exact absurd h (by simpa using hc)

theorem pipeSpaced_spaceOutPipes : ∀ l : List Char,
    pipeSpaced (spaceOutPipes l) := by
  intro l
  induction l with
  | nil => exact List.chain'_nil
  | cons c rest ih =>
    unfold pipeSpaced at *
    unfold spaceOutPipes
    rw [List.chain'_append]
    refine ⟨?_, ih, ?_⟩
    · by_cases hc : c == '|'
      · rw [if_pos hc]
        refine List.chain'_cons.mpr ⟨⟨fun h => absurd h (by decide), fun _ => rfl⟩, ?_⟩
        exact List.chain'_cons.mpr
          ⟨⟨fun _ => rfl, fun h => absurd h (by decide)⟩, List.chain'_singleton _⟩
      · rw [if_neg hc]
        exact List.chain'_singleton _
    · intro x hx y hy
      have hyne : y ≠ '|' := by
        intro hy'
        subst hy'
        exact spaceOutPipes_head_ne_pipe rest (Option.mem_def.mp hy)
      by_cases hc : c == '|'
      · rw [if_pos hc] at hx
        have hxeq : x = ' ' := by simpa [eq_comm] using hx
        subst hxeq
        exact ⟨fun h => absurd h (by decide), fun _ => rfl⟩
      · rw [if_neg hc] at hx
        have hxeq : x = c := by simpa [eq_comm] using hx
        subst hxeq
        exact ⟨fun h => absurd h (by simpa using hc), fun h => absurd h hyne⟩

theorem dropWhile_head_ne_pipe : ∀ (l : List Char) (c : Char),
    dashColon c = true → pipeSpaced (c :: l) →
    ∀ x xs, (c :: l).dropWhile dashColon = x :: xs → x ≠ '|' := by
  intro l
  induction l with
  | nil =>
    intro c hc _ x xs h
    simp [List.dropWhile_cons, hc] at h
  | cons d l' ih =>
    intro c hc hch x xs h
    rw [List.dropWhile_cons, if_pos hc] at h
    by_cases hd : dashColon d = true
    · exact ih d hd (List.Chain'.tail hch) x xs h
    · rw [List.dropWhile_cons, if_neg hd] at h
      injection h with h1 h2
      subst h1
      intro hpipe
      have hR := (List.chain'_cons.mp hch).1
      have hceq := hR.2 hpipe
      rw [hceq] at hc
      simp [dashColon] at hc

theorem stage2_eq_self : ∀ (n : Nat) (s : List Char), s.length ≤ n →
    pipeSpaced s → stage2 s = s := by
  intro n
  induction n with
  | zero =>
    intro s hs _
    have hnil : s = [] := List.length_eq_zero.mp (by omega)
    subst hnil
    simp [stage2]
  | succ n ih =>
    intro s hs hps
    cases s with
    | nil => simp [stage2]
    | cons c rest =>
      have hrest : rest.length ≤ n := by
        simp only [List.length_cons] at hs
        omega
      have htail := ih rest hrest (List.Chain'.tail hps)
      rw [stage2]
      by_cases hc : dashColon c = true
      · rw [if_pos hc]
        split
        · rename_i rest2 heq
          exact (dropWhile_head_ne_pipe rest c hc hps '|' rest2 heq rfl).elim
        · rw [htail]
      · rw [if_neg hc, htail]

theorem toksMatcher_pipe_crlf_false (ts : List Tok) :
    ∀ s : List Char, pipeSpaced s →
      toksMatcher (.lit '|' :: .plus crlfClass :: ts) s = false := by
  intro s hs
  cases s with
  | nil => rfl
  | cons x xs =>
    show (x == '|' && plusCont crlfClass (toksMatcher ts) xs) = false
    by_cases hx : x = '|'
    · subst hx
      cases xs with
      | nil => simp [plusCont]
      | cons y ys =>
        have hR := (List.chain'_cons.mp hs).1
        have hy : y = ' ' := hR.1 rfl
        subst hy
        simp [plusCont, crlfClass]
    · simp [beq_eq_false_iff_ne.mpr hx]

theorem plusCont_dot_pipe_crlf_false (ts : List Tok) :
    ∀ s : List Char, pipeSpaced s →
      plusCont dotClass (toksMatcher (.lit '|' :: .plus crlfClass :: ts)) s =
        false := by
  intro s
  induction s with
  | nil => intro _; rfl
  | cons x xs ih =>
    intro hs
    show (dotClass x &&
      (toksMatcher (.lit '|' :: .plus crlfClass :: ts) xs ||
        plusCont dotClass (toksMatcher (.lit '|' :: .plus crlfClass :: ts)) xs)) =
      false
    rw [toksMatcher_pipe_crlf_false ts xs (List.Chain'.tail hs),
      ih (List.Chain'.tail hs)]
    simp

theorem toksMatcher_table_false : ∀ s : List Char, pipeSpaced s →
    toksMatcher tableToks s = false := by
  intro s hs
  cases s with
  | nil => rfl
  | cons x xs =>
    show (x == '|' && plusCont dotClass
      (toksMatcher (.lit '|' :: .plus crlfClass ::
        [.lit '|', .plus sepClass, .lit '|'])) xs) = false
    rw [plusCont_dot_pipe_crlf_false [.lit '|', .plus sepClass, .lit '|'] xs
      (List.Chain'.tail hs)]
    simp

theorem searchToks_table_false : ∀ s : List Char, pipeSpaced s →
    searchToks tableToks s = false := by
  intro s
  induction s with
  | nil => intro _; rfl
  | cons c cs ih =>
    intro hs
    show (toksMatcher tableToks (c :: cs) || searchToks tableToks cs) = false
    rw [toksMatcher_table_false _ hs, ih (List.Chain'.tail hs)]
    rfl

/-- C6, corrected claim: at the `sendSmart` level, raw render mode always
delivers plain text (never a card), and the raw-mode table reformatting
output never contains the markdown table row pattern (the code's own
table-shape regex can no longer match, because `markdownTableToAscii` pads
every pipe with spaces, so no `|` is ever followed by the newline the
pattern requires).  However — see the counterexample — the dispatch layer
overrides a raw account render mode with `"card"` whenever
`shouldUseCardRendering(text)` holds, so a table- or code-shaped reply is
delivered as a card even for a raw-configured account. -/
theorem raw_mode_plain_and_no_table (t : String) :
    sendSmartRender "raw" none t = .plainText (markdownTableToAscii t) ∧
    hasTablePattern (markdownTableToAscii t) = false := by
  constructor
  · rfl
  · have hps : pipeSpaced (spaceOutPipes t.data) := pipeSpaced_spaceOutPipes t.data
    have hid : stage2 (spaceOutPipes t.data) = spaceOutPipes t.data :=
      stage2_eq_self (spaceOutPipes t.data).length _ le_rfl hps
    show searchToks tableToks (markdownTableToAscii t).data = false
    rw [show (markdownTableToAscii t).data = stage2 (spaceOutPipes t.data)
      from rfl, hid]
    exact searchToks_table_false _ hps

/-- C6 counterexample: the claim fails as stated.  For a table-shaped reply
text under an account configured with raw render mode, the deliver callback
of `dispatchFeishuMessage` computes render mode `"card"` (overriding raw),
and `sendSmart` then delivers a card — so in raw render mode the selected
delivery representation IS a card for card-worthy text. -/
theorem raw_mode_card_override_counterexample :
    shouldUseCardRendering "|a|b|\n|---|---|\n|1|2|" = true ∧
    dispatchRenderMode "raw" "|a|b|\n|---|---|\n|1|2|" = "card" ∧
    sendSmartRender "raw" (some "card") "|a|b|\n|---|---|\n|1|2|" =
      .card "|a|b|\n|---|---|\n|1|2|" := by decide

end Feishu
